import Mathlib

/-
Verification of the RETS record decoder (rets/client/decoder.py): the
metadata-driven construction of per-field decoders and the conversion of raw
string values into typed values, including the timezone-sensitive parsing of
temporal literals.

The embedding is shallow: Python datetimes are modelled by explicit
calendar components (`NaiveDT`), datetime arithmetic by microsecond counts
since 0001-01-01 (the proleptic Gregorian calendar used by Python's
`datetime`), the regular expression `_datetime_regex` by a deterministic
character-list parser with the same matching semantics (`re.match`: anchored
at the start of the string, optional groups matched greedily, not anchored at
the end), and exceptions by `Except`.

`datetime.astimezone()` on a zone-naive value presumes the value is local to
the host system's timezone and converts it to that same timezone.  Its effect
on the wall clock is the identity except when the wall clock falls in a DST
transition gap of the host zone (a nonexistent local time is shifted by the
gap), and it can fail near the ends of the representable range.  The host
timezone is ambient process state, so the embedding passes this wall-clock
round-trip explicitly as a parameter `az : NaiveDT → Option NaiveDT`;
`azId` models any fixed-offset host timezone, and the `azGap*` functions
below model a host in a zone such as America/New_York at a spring-forward
wall clock.
-/

namespace Rets

/-- Gregorian leap-year test, as used by Python's `datetime` module. -/
def isLeap (y : ℕ) : Bool :=
  y % 4 == 0 && (y % 100 != 0 || y % 400 == 0)

/-- Length of month `m` (1-12) given the leap flag of the year. -/
def daysInMonthB (leap : Bool) (m : ℕ) : ℕ :=
  if m = 2 then (if leap then 29 else 28)
  else if m = 4 ∨ m = 6 ∨ m = 9 ∨ m = 11 then 30 else 31

/-- Length of month `m` (1-12) of year `y`. -/
def daysInMonth (y m : ℕ) : ℕ := daysInMonthB (isLeap y) m

/-- Total days of months `1..m` for a year with the given leap flag. -/
def monthsSumB (leap : Bool) : ℕ → ℕ
  | 0 => 0
  | m + 1 => monthsSumB leap m + daysInMonthB leap (m + 1)

/-- Days of year `y` that precede month `m` (0 for January). -/
def daysBeforeMonth (y m : ℕ) : ℕ := monthsSumB (isLeap y) (m - 1)

/-- Days before January 1 of year `y`, counted from 0001-01-01. -/
def daysBeforeYear (y : ℕ) : ℕ :=
  365 * (y - 1) + (y - 1) / 4 - (y - 1) / 100 + (y - 1) / 400

/-- Number of days in year `y`. -/
def yearLen (y : ℕ) : ℕ := if isLeap y then 366 else 365

/-- A zone-naive Python `datetime`: explicit wall-clock components. -/
structure NaiveDT where
  year : ℕ
  month : ℕ
  day : ℕ
  hour : ℕ
  minute : ℕ
  second : ℕ
  micro : ℕ
  deriving DecidableEq, Repr

/-- The argument validation performed by the `datetime` constructor
(`MINYEAR = 1`, `MAXYEAR = 9999`, month/day/time ranges). -/
def validArgs (w : NaiveDT) : Prop :=
  1 ≤ w.year ∧ w.year ≤ 9999 ∧ 1 ≤ w.month ∧ w.month ≤ 12 ∧
  1 ≤ w.day ∧ w.day ≤ daysInMonth w.year w.month ∧
  w.hour ≤ 23 ∧ w.minute ≤ 59 ∧ w.second ≤ 59 ∧ w.micro ≤ 999999

instance (w : NaiveDT) : Decidable (validArgs w) := by
  unfold validArgs; infer_instance

/-- Rata-die ordinal of the date part: days since 0001-01-01. -/
def toDays (w : NaiveDT) : ℕ :=
  daysBeforeYear w.year + daysBeforeMonth w.year w.month + (w.day - 1)

/-- Microseconds since 0001-01-01 00:00:00 as a natural number. -/
def NaiveDT.toMicrosN (w : NaiveDT) : ℕ :=
  toDays w * 86400000000 +
    ((w.hour * 60 + w.minute) * 60 + w.second) * 1000000 + w.micro

/-- Microseconds since 0001-01-01 00:00:00; the timeline Python's naive
datetime arithmetic (`datetime ± timedelta`, comparison) works on. -/
def NaiveDT.toMicros (w : NaiveDT) : ℤ := (w.toMicrosN : ℤ)

/-- `datetime.max` = 9999-12-31 23:59:59.999999. -/
def maxDT : NaiveDT := ⟨9999, 12, 31, 23, 59, 59, 999999⟩

/-- Locate the year containing day-ordinal `n`, scanning forward from `y`;
returns the year and the remaining day-of-year.  Fuel-bounded recursion
(the calendar spans years 1-9999). -/
def findYear : ℕ → ℕ → ℕ → ℕ × ℕ
  | 0, y, n => (y, n)
  | fuel + 1, y, n =>
    if n < yearLen y then (y, n) else findYear fuel (y + 1) (n - yearLen y)

/-- Locate the month of year `y` containing day-of-year `n`, scanning from
month `m`; returns the month and the remaining day-of-month (0-based). -/
def findMonth (y : ℕ) : ℕ → ℕ → ℕ → ℕ × ℕ
  | 0, m, n => (m, n)
  | fuel + 1, m, n =>
    if n < daysInMonth y m then (m, n)
    else findMonth y fuel (m + 1) (n - daysInMonth y m)

/-- Convert a day ordinal (0 = 0001-01-01) back to year/month/day. -/
def fromDays (n : ℕ) : ℕ × ℕ × ℕ :=
  ((findYear 9998 1 n).1,
   (findMonth (findYear 9998 1 n).1 11 1 (findYear 9998 1 n).2).1,
   (findMonth (findYear 9998 1 n).1 11 1 (findYear 9998 1 n).2).2 + 1)

/-- Convert a microsecond count back to a `datetime`; `none` models the
`OverflowError` raised when the result leaves `[datetime.min, datetime.max]`. -/
def fromMicros (t : ℤ) : Option NaiveDT :=
  if 0 ≤ t ∧ t ≤ (maxDT.toMicrosN : ℤ) then
    some ⟨(fromDays (t.toNat / 86400000000)).1,
          (fromDays (t.toNat / 86400000000)).2.1,
          (fromDays (t.toNat / 86400000000)).2.2,
          t.toNat % 86400000000 / 3600000000,
          t.toNat % 86400000000 % 3600000000 / 60000000,
          t.toNat % 86400000000 % 60000000 / 1000000,
          t.toNat % 86400000000 % 1000000⟩
  else none

/-- ASCII digit test; models `\d` of `_datetime_regex` (protocol values are
ASCII; the non-ASCII Unicode digits Python's `\d` also accepts are not
modelled, nothing in the claims depends on them). -/
def isDig (c : Char) : Bool := decide ('0' ≤ c) && decide (c ≤ '9')

/-- Numeric value of an ASCII digit. -/
def digitVal (c : Char) : ℕ := c.toNat - 48

/-- Match exactly two digits; returns the value, the consumed characters and
the remaining input, like each `(\d{2})` group of `_datetime_regex`. -/
def parse2 : List Char → Option (ℕ × List Char × List Char)
  | a :: b :: rest =>
    if isDig a && isDig b then
      some (digitVal a * 10 + digitVal b, [a, b], rest)
    else none
  | _ => none

/-- Match exactly four digits, like the `(\d{4})` year group. -/
def parse4 : List Char → Option (ℕ × List Char × List Char)
  | a :: b :: c :: d :: rest =>
    if isDig a && isDig b && isDig c && isDig d then
      some (((digitVal a * 10 + digitVal b) * 10 + digitVal c) * 10 + digitVal d,
            [a, b, c, d], rest)
    else none
  | _ => none

/-- The mandatory date part `(\d{4})-(\d{2})-(\d{2})` of `_datetime_regex`. -/
def parseDate (cs : List Char) : Option ((ℕ × ℕ × ℕ) × List Char × List Char) :=
  match parse4 cs with
  | none => none
  | some (y, c1, r1) =>
    match r1 with
    | '-' :: r2 =>
      match parse2 r2 with
      | none => none
      | some (mo, c2, r3) =>
        match r3 with
        | '-' :: r4 =>
          match parse2 r4 with
          | none => none
          | some (d, c3, r5) =>
            some ((y, mo, d), c1 ++ '-' :: c2 ++ '-' :: c3, r5)
        | _ => none
    | _ => none

/-- The groups of the optional time part
`(?:[T ](\d{2}):(\d{2}):(\d{2})(?:\.(\d))?)?`. -/
structure TimePart where
  sep : Char
  hh : ℕ
  mi : ℕ
  ss : ℕ
  frac : Option ℕ
  deriving DecidableEq, Repr

/-- The optional zone suffix `(?:(Z)|([+-])(\d{2}):(\d{2}))?`. -/
inductive ZonePart where
  | noZone : ZonePart
  | z : ZonePart
  | off (neg : Bool) (hh mm : ℕ) : ZonePart
  deriving DecidableEq, Repr

/-- The capture groups of a successful `_datetime_regex.match`. -/
structure ParsedDT where
  year : ℕ
  month : ℕ
  day : ℕ
  time : Option TimePart
  zone : ZonePart
  deriving DecidableEq, Repr

/-- The optional time group.  `none` means the group matched nothing, in
which case no input is consumed (the regex engine skips the optional group
when it cannot match in full). -/
def parseTime : List Char → Option (TimePart × List Char × List Char)
  | c :: rest =>
    if c = 'T' ∨ c = ' ' then
      match parse2 rest with
      | none => none
      | some (hh, c1, r1) =>
        match r1 with
        | ':' :: r2 =>
          match parse2 r2 with
          | none => none
          | some (mi, c2, r3) =>
            match r3 with
            | ':' :: r4 =>
              match parse2 r4 with
              | none => none
              | some (ss, c3, r5) =>
                match r5 with
                | '.' :: d :: r6 =>
                  if isDig d then
                    some (⟨c, hh, mi, ss, some (digitVal d)⟩,
                          c :: c1 ++ ':' :: c2 ++ ':' :: c3 ++ ['.', d], r6)
                  else
                    some (⟨c, hh, mi, ss, none⟩,
                          c :: c1 ++ ':' :: c2 ++ ':' :: c3, r5)
                | _ =>
                  some (⟨c, hh, mi, ss, none⟩,
                        c :: c1 ++ ':' :: c2 ++ ':' :: c3, r5)
            | _ => none
        | _ => none
    else none
  | [] => none

/-- The optional zone group; never fails, consuming nothing when neither
alternative matches (the regex engine skips the optional group). -/
def parseZone : List Char → ZonePart × List Char × List Char
  | 'Z' :: rest => (.z, ['Z'], rest)
  | c :: r1 =>
    if c = '+' ∨ c = '-' then
      match parse2 r1 with
      | some (h, c1, r2) =>
        match r2 with
        | ':' :: r3 =>
          match parse2 r3 with
          | some (mi, c2, r4) => (.off (c = '-') h mi, c :: c1 ++ ':' :: c2, r4)
          | none => (.noZone, [], c :: r1)
        | _ => (.noZone, [], c :: r1)
      | none => (.noZone, [], c :: r1)
    else (.noZone, [], c :: r1)
  | [] => (.noZone, [], [])

/-- Model of `_datetime_regex.match(value)`: anchored at the start of the
input, greedy in the optional groups, and not anchored at the end.  Returns
the capture groups, the consumed prefix, and the ignored remainder; `none`
models `match` returning `None`. -/
def parseDT (cs : List Char) : Option (ParsedDT × List Char × List Char) :=
  match parseDate cs with
  | none => none
  | some ((y, mo, d), dcon, r1) =>
    match parseTime r1 with
    | some (tp, tcon, r2) =>
      some (⟨y, mo, d, some tp, (parseZone r2).1⟩,
            dcon ++ tcon ++ (parseZone r2).2.1, (parseZone r2).2.2)
    | none =>
      some (⟨y, mo, d, none, (parseZone r1).1⟩,
            dcon ++ (parseZone r1).2.1, (parseZone r1).2.2)

/-- The `datetime(...)` construction in `_decode_datetime`: missing time
components default to zero, the single fractional digit is scaled by
100000 microseconds. -/
def mkWall (p : ParsedDT) : NaiveDT :=
  match p.time with
  | none => ⟨p.year, p.month, p.day, 0, 0, 0, 0⟩
  | some t =>
    ⟨p.year, p.month, p.day, t.hh, t.mi, t.ss,
     (match t.frac with | some f => f * 100000 | none => 0)⟩

/-- The signed offset of `_decode_datetime` in minutes:
`timedelta(hours=offhours, minutes=offminutes)`, negated when the sign group
is `-`; zero when the zone suffix is `Z` or absent. -/
def offsetMinutes (p : ParsedDT) : ℤ :=
  match p.zone with
  | .off neg h m => (if neg then -1 else 1) * ((h : ℤ) * 60 + (m : ℤ))
  | _ => 0

/-- The fixed offset, in minutes, of the tzinfo attached when
`include_tz` is true: `timezone.utc` (0) for the `Z` suffix, otherwise
`timezone(offset)`. -/
def tzOffsetOf (p : ParsedDT) : ℤ :=
  match p.zone with
  | .z => 0
  | _ => offsetMinutes p

/-- The typed values a field decodes to. -/
inductive Value where
  | str (s : String)
  | strList (l : List String)
  | bool (b : Bool)
  | int (n : ℤ)
  | dec (coeff : ℤ) (exp : ℤ)
  | naive (w : NaiveDT)
  | aware (w : NaiveDT) (offMinutes : ℤ)
  | timeOfDay (hour minute second micro : ℕ) (offMinutes : Option ℤ)
  deriving DecidableEq, Repr

/-- The UTC timeline instant of a zone-aware value: wall clock minus the
attached fixed offset, in microseconds since 0001-01-01 00:00:00 UTC. -/
def awareInstant (w : NaiveDT) (offMinutes : ℤ) : ℤ :=
  w.toMicros - offMinutes * 60000000

/-- Model of `_decode_datetime(value, include_tz)`.  `az` is the wall-clock
round-trip of `decoded.astimezone()` under the host local timezone (see the
header comment); it is used only on the `include_tz` branch, exactly as in
the source.  Error strings describe the Python exception raised. -/
def _decode_datetime (az : NaiveDT → Option NaiveDT) (includeTz : Bool)
    (s : String) : Except String Value :=
  match parseDT s.data with
  | none => .error "AttributeError: NoneType object has no attribute groups"
  | some (p, _, _) =>
    if validArgs (mkWall p) then
      if includeTz then
        match p.zone with
        | .z =>
          match az (mkWall p) with
          | some w2 => .ok (.aware w2 0)
          | none => .error "OverflowError: astimezone"
        | _ =>
          match az (mkWall p) with
          | some w2 =>
            if (offsetMinutes p).natAbs < 1440 then
              .ok (.aware w2 (offsetMinutes p))
            else
              .error "ValueError: offset must be strictly between -timedelta(hours=24) and timedelta(hours=24)"
          | none => .error "OverflowError: astimezone"
      else
        match fromMicros ((mkWall p).toMicros - offsetMinutes p * 60000000) with
        | some w2 => .ok (.naive w2)
        | none => .error "OverflowError: date value out of range"
    else .error "ValueError: invalid datetime component"

/-- Model of `_decode_time(value, include_tz)`: prefix the epoch date, run the
datetime decoder, keep the time-of-day and the tzinfo. -/
def _decode_time (az : NaiveDT → Option NaiveDT) (includeTz : Bool)
    (s : String) : Except String Value :=
  match _decode_datetime az includeTz ("1970-01-01T" ++ s) with
  | .ok (.naive w) => .ok (.timeOfDay w.hour w.minute w.second w.micro none)
  | .ok (.aware w off) => .ok (.timeOfDay w.hour w.minute w.second w.micro (some off))
  | .ok v => .ok v
  | .error e => .error e

/-- One alternative list for the month pattern of CPython's
`_strptime` for `%m`, `1[0-2]|0[1-9]|[1-9]`, in alternation order. -/
def monthAlts (cs : List Char) : List (ℕ × List Char) :=
  (match cs with
   | '1' :: b :: rest =>
     if b = '0' ∨ b = '1' ∨ b = '2' then [(10 + digitVal b, rest)] else []
   | _ => []) ++
  (match cs with
   | '0' :: b :: rest =>
     if isDig b ∧ b ≠ '0' then [(digitVal b, rest)] else []
   | _ => []) ++
  (match cs with
   | a :: rest =>
     if isDig a ∧ a ≠ '0' then [(digitVal a, rest)] else []
   | _ => [])

/-- The day pattern of CPython's `_strptime` for `%d`,
`3[0-1]|[1-2]\d|0[1-9]|[1-9]| [1-9]`, in alternation order. -/
def dayAlts (cs : List Char) : List (ℕ × List Char) :=
  (match cs with
   | '3' :: b :: rest =>
     if b = '0' ∨ b = '1' then [(30 + digitVal b, rest)] else []
   | _ => []) ++
  (match cs with
   | a :: b :: rest =>
     if (a = '1' ∨ a = '2') ∧ isDig b then [(digitVal a * 10 + digitVal b, rest)] else []
   | _ => []) ++
  (match cs with
   | '0' :: b :: rest =>
     if isDig b ∧ b ≠ '0' then [(digitVal b, rest)] else []
   | _ => []) ++
  (match cs with
   | a :: rest =>
     if isDig a ∧ a ≠ '0' then [(digitVal a, rest)] else []
   | _ => []) ++
  (match cs with
   | ' ' :: a :: rest =>
     if isDig a ∧ a ≠ '0' then [(digitVal a, rest)] else []
   | _ => [])

/-- The regex part of `datetime.strptime(value, "%Y-%m-%d")`: `%Y` is exactly
four digits, `%m` and `%d` are the alternation patterns above; backtracking
across the literal `-` separators as in the regex engine.  Returns the
parsed fields and the unconverted remainder. -/
def strptimeCore (cs : List Char) : Option (ℕ × ℕ × ℕ × List Char) :=
  match parse4 cs with
  | none => none
  | some (y, _, r1) =>
    match r1 with
    | '-' :: r2 =>
      (monthAlts r2).findSome? (fun mr =>
        match mr.2 with
        | '-' :: r4 => ((dayAlts r4).head?).map (fun dr => (y, mr.1, dr.1, dr.2))
        | _ => none)
    | _ => none

/-- Model of `datetime.strptime(value, "%Y-%m-%d")` in `_decode_date`:
`none` models the `ValueError` raised on a failed match, unconverted
trailing data, or out-of-range calendar components. -/
def strptimeYmd (s : String) : Option NaiveDT :=
  match strptimeCore s.data with
  | some (y, mo, d, []) =>
    if 1 ≤ y ∧ d ≤ daysInMonth y mo then some ⟨y, mo, d, 0, 0, 0, 0⟩ else none
  | _ => none

/-- Model of `_decode_date(value, include_tz)`: try the bare `%Y-%m-%d`
parse, fall back to `_decode_datetime` on `ValueError`. -/
def _decode_date (az : NaiveDT → Option NaiveDT) (includeTz : Bool)
    (s : String) : Except String Value :=
  match strptimeYmd s with
  | some w => .ok (.naive w)
  | none => _decode_datetime az includeTz s

/-- The ASCII whitespace stripped by Python's numeric constructors. -/
def isSpacePy (c : Char) : Bool :=
  c = ' ' ∨ c = '\t' ∨ c = '\n' ∨ c = '\r' ∨ c = '\x0b' ∨ c = '\x0c'

/-- Strip surrounding whitespace from a character list. -/
def stripChars (cs : List Char) : List Char :=
  ((cs.dropWhile isSpacePy).reverse.dropWhile isSpacePy).reverse

/-- Model of Python `int(str)`: surrounding whitespace stripped, optional
sign, one or more ASCII digits.  (Underscore separators and non-ASCII
digits and whitespace, which Python also accepts, are not modelled; no
claim depends on them.) -/
def intPy (s : String) : Option ℤ :=
  match stripChars s.data with
  | [] => none
  | c :: rest =>
    let sd : Bool × List Char :=
      if c = '-' then (true, rest)
      else if c = '+' then (false, rest) else (false, c :: rest)
    if sd.2 ≠ [] ∧ sd.2.all isDig then
      let n : ℕ := sd.2.foldl (fun acc d => acc * 10 + digitVal d) 0
      some (if sd.1 then -(n : ℤ) else (n : ℤ))
    else none

/-- Model of the numeric core of `decimal.Decimal(str)`: optional sign,
digits with an optional fractional part and an optional exponent; the value
is `coeff * 10 ^ exp`.  (Special values such as `NaN`/`Infinity` and
underscore separators are not modelled; no claim depends on them.) -/
def decimalPy (s : String) : Option (ℤ × ℤ) :=
  match stripChars s.data with
  | cs =>
    let sd : Bool × List Char :=
      match cs with
      | '-' :: r => (true, r)
      | '+' :: r => (false, r)
      | r => (false, r)
    let ip := sd.2.takeWhile isDig
    let r2 := sd.2.dropWhile isDig
    let fpr : List Char × List Char :=
      match r2 with
      | '.' :: r => (r.takeWhile isDig, r.dropWhile isDig)
      | r => ([], r)
    if ip.length + fpr.1.length = 0 then none
    else
      let coeff : ℤ :=
        ((ip ++ fpr.1).foldl (fun acc d => acc * 10 + digitVal d) 0 : ℕ)
      let sc : ℤ := if sd.1 then -coeff else coeff
      match fpr.2 with
      | [] => some (sc, -(fpr.1.length : ℤ))
      | e :: r4 =>
        if e = 'e' ∨ e = 'E' then
          let ed : Bool × List Char :=
            match r4 with
            | '-' :: r => (true, r)
            | '+' :: r => (false, r)
            | r => (false, r)
          if ed.2 ≠ [] ∧ ed.2.all isDig then
            let ev : ℤ := (ed.2.foldl (fun acc d => acc * 10 + digitVal d) 0 : ℕ)
            some (sc, -(fpr.1.length : ℤ) + (if ed.1 then -ev else ev))
          else none
        else none

/-- Decoder for the integer data types (`int` applied to the raw value). -/
def intDecode (v : String) : Except String Value :=
  match intPy v with
  | some n => .ok (.int n)
  | none => .error ("ValueError: invalid literal for int with base 10: " ++ v)

/-- Decoder for the `Decimal` data type. -/
def decDecode (v : String) : Except String Value :=
  match decimalPy v with
  | some cd => .ok (.dec cd.1 cd.2)
  | none => .error ("InvalidOperation: " ++ v)

/-- The `_DECODERS` table: data types whose decoder ignores `include_tz`. -/
def plainDECODERS : List (String × (String → Except String Value)) :=
  [("Boolean", fun v => .ok (.bool (v == "1"))),
   ("Character", fun v => .ok (.str v)),
   ("Tiny", intDecode),
   ("Small", intDecode),
   ("Int", intDecode),
   ("Long", intDecode),
   ("Decimal", decDecode),
   ("Number", intDecode),
   ("Point", fun v => .ok (.str v))]

/-- The enumerated set of data types with a registered decoder: the
timezone-aware types plus the keys of `_DECODERS`. -/
def knownDataTypes : List String :=
  ["DateTime", "Time", "Date", "Boolean", "Character", "Tiny", "Small", "Int",
   "Long", "Decimal", "Number", "Point"]

/-- `_LOOKUP_TYPE`. -/
def lookupTYPE : String := "Lookup"

/-- `_LOOKUP_MULTI_TYPES`. -/
def lookupMultiTYPES : List String := ["LookupMulti", "LookupBitstring", "LookupBitmask"]

/-- The errors surfaced by the record decoder: `RetsParseError` for an
unknown data type at decoder-resolution time, and the `ValueError` wrapper
of `decode_field` carrying the field name, the raw value, and the message of
the underlying exception as its cause. -/
inductive DecodeErr where
  | unknownDataType (dt : String)
  | fieldError (field value cause : String)
  deriving DecidableEq, Repr

/-- A resolved single-field decoder.  The first argument is the ambient
host-timezone round-trip used by `datetime.astimezone()` (only the temporal
decoders with `include_tz = true` ever consult it). -/
def Decoder : Type := (NaiveDT → Option NaiveDT) → String → Except String Value

/-- Model of `_get_decoder(data_type, interpretation, include_tz)`. -/
def _get_decoder (dataType interpretation : String) (includeTz : Bool) :
    Except DecodeErr Decoder :=
  if interpretation = lookupTYPE then
    .ok (fun _ v => .ok (.str v))
  else if interpretation ∈ lookupMultiTYPES then
    .ok (fun _ v => .ok (.strList (v.splitOn ",")))
  else if dataType = "DateTime" then
    .ok (fun az v => _decode_datetime az includeTz v)
  else if dataType = "Time" then
    .ok (fun az v => _decode_time az includeTz v)
  else if dataType = "Date" then
    .ok (fun az v => _decode_date az includeTz v)
  else
    match plainDECODERS.find? (fun kv => kv.1 = dataType) with
    | some kv => .ok (fun _ v => kv.2 v)
    | none => .error (.unknownDataType dataType)

/-- One row of the metadata table: `SystemName`, `DataType`, and the
`Interpretation` tag (`""` when absent, as `.get('Interpretation', '')`). -/
structure FieldMeta where
  systemName : String
  dataType : String
  interpretation : String
  deriving DecidableEq, Repr

/-- The `_metadata_map` lookup with its `KeyError` fallback: a field missing
from the table behaves as `{'DataType': 'Character'}` (and a logger warning,
not modelled: the diagnostics channel carries no data flow).  The dict
comprehension keeps the last entry for a duplicated `SystemName`. -/
def metaFor (table : List FieldMeta) (f : String) : String × String :=
  match table.reverse.find? (fun fm => fm.systemName = f) with
  | some fm => (fm.dataType, fm.interpretation)
  | none => ("Character", "")

/-- Left-to-right effectful map over a list in the `Except` monad; the
explicit recursion mirrors the eager Python loops (first exception wins). -/
def mapE {α β : Type} (g : α → Except DecodeErr β) : List α → Except DecodeErr (List β)
  | [] => .ok []
  | x :: xs =>
    match g x with
    | .error e => .error e
    | .ok y =>
      match mapE g xs with
      | .error e => .error e
      | .ok ys => .ok (y :: ys)

/-- Model of `RecordDecoder._build_decoders(fields)`. -/
def buildDecoders (table : List FieldMeta) (includeTz : Bool)
    (fields : List String) : Except DecodeErr (List (String × Decoder)) :=
  mapE (fun f =>
    match _get_decoder (metaFor table f).1 (metaFor table f).2 includeTz with
    | .ok d => .ok (f, d)
    | .error e => .error e) fields

/-- Dict access `decoders[field]`. -/
def lookupDecoder (ds : List (String × Decoder)) (f : String) : Option Decoder :=
  (ds.find? (fun kv => kv.1 = f)).map (fun kv => kv.2)

/-- Model of the inner `decode_field(field, value)` of `RecordDecoder.decode`:
the empty string short-circuits to `None`; any exception from the decoder
call (including the `KeyError` of a field absent from the first row) is
wrapped into a `ValueError` naming the field and the value and carrying the
original error as cause. -/
def decodeField (ds : List (String × Decoder)) (az : NaiveDT → Option NaiveDT)
    (f v : String) : Except DecodeErr (Option Value) :=
  if v = "" then .ok none
  else
    match lookupDecoder ds f with
    | none => .error (.fieldError f v "KeyError")
    | some d =>
      match d az v with
      | .ok x => .ok (some x)
      | .error e => .error (.fieldError f v e)

/-- Model of `RecordDecoder.decode(rows)`: empty input short-circuits;
otherwise the decoders are built from the first row's fields and applied to
every field of every row in order. -/
def decode (table : List FieldMeta) (includeTz : Bool)
    (az : NaiveDT → Option NaiveDT)
    (rows : List (List (String × String))) :
    Except DecodeErr (List (List (String × Option Value))) :=
  match rows with
  | [] => .ok []
  | r0 :: _ =>
    match buildDecoders table includeTz (r0.map Prod.fst) with
    | .error e => .error e
    | .ok ds =>
      mapE (fun row =>
        mapE (fun fv =>
          match decodeField ds az fv.1 fv.2 with
          | .ok x => .ok (fv.1, x)
          | .error e => .error e) row) rows

/-- The host-timezone round-trip of any fixed-offset local zone (and of any
zone at a wall clock outside its DST gaps): the identity. -/
def azId : NaiveDT → Option NaiveDT := fun w => some w

/-- Host in America/New_York at the 2021-03-14 spring-forward transition:
the naive wall clock 02:30, nonexistent locally, is interpreted with the
post-gap offset (EDT, UTC-4, instant 06:30 UTC) and converted back to local
time, which at that instant is still EST, giving the wall clock 01:30 — so
`astimezone()` shifts a gap wall clock by the one-hour gap. -/
def azGapA : NaiveDT → Option NaiveDT := fun w =>
  if w = ⟨2021, 3, 14, 2, 30, 0, 0⟩ then some ⟨2021, 3, 14, 1, 30, 0, 0⟩ else some w

/-- Host in America/New_York at the 2020-03-08 spring-forward transition. -/
def azGapB : NaiveDT → Option NaiveDT := fun w =>
  if w = ⟨2020, 3, 8, 2, 30, 0, 0⟩ then some ⟨2020, 3, 8, 1, 30, 0, 0⟩ else some w

/-- Modelled from the spec: the date part `YYYY-MM-DD` of the grammar. -/
def chkDate : List Char → Option (List Char)
  | a :: b :: c :: d :: s1 :: e :: f :: s2 :: g :: h :: rest =>
    if isDig a && isDig b && isDig c && isDig d && decide (s1 = '-') &&
       isDig e && isDig f && decide (s2 = '-') && isDig g && isDig h
    then some rest else none
  | _ => none

/-- Modelled from the spec: the optional time part `[T or space]HH:MM:SS[.f]`
of the grammar (present exactly when the next character is the separator,
which no other grammar production can start with). -/
def chkTime : List Char → Option (List Char)
  | c :: rest =>
    if c = 'T' ∨ c = ' ' then
      match rest with
      | h1 :: h2 :: c1 :: m1 :: m2 :: c2 :: s1 :: s2 :: r =>
        if isDig h1 && isDig h2 && decide (c1 = ':') && isDig m1 && isDig m2 &&
           decide (c2 = ':') && isDig s1 && isDig s2 then
          match r with
          | '.' :: f1 :: r2 => if isDig f1 then some r2 else none
          | _ => some r
        else none
      | _ => none
    else some (c :: rest)
  | [] => some []

/-- Modelled from the spec: the optional zone suffix `[Z | (+|-)HH:MM]`. -/
def chkZone : List Char → Option (List Char)
  | 'Z' :: rest => some rest
  | c :: rest =>
    if c = '+' ∨ c = '-' then
      match rest with
      | h1 :: h2 :: c1 :: m1 :: m2 :: r =>
        if isDig h1 && isDig h2 && decide (c1 = ':') && isDig m1 && isDig m2
        then some r else none
      | _ => none
    else some (c :: rest)
  | [] => some []

/-- Modelled from the spec: full-string membership in the temporal grammar
`YYYY-MM-DD[ or T]HH:MM:SS[.f][Z | (+|-)HH:MM]` — the whole string must be
generated by the grammar. -/
def grammarFull (cs : List Char) : Bool :=
  decide ((((chkDate cs).bind chkTime).bind chkZone) = some [])

instance {ε α : Type} [DecidableEq ε] [DecidableEq α] : DecidableEq (Except ε α) :=
  fun a b =>
    match a, b with
    | .ok x, .ok y => decidable_of_iff (x = y) (by simp)
    | .error x, .error y => decidable_of_iff (x = y) (by simp)
    | .ok _, .error _ => isFalse (by simp)
    | .error _, .ok _ => isFalse (by simp)

/-
Theorems.  First the calendar arithmetic: the `fromMicros` conversion is a
right inverse of `NaiveDT.toMicros`, which is what gives the `decoded -
offset` subtraction of `_decode_datetime` its meaning on the microsecond
timeline.
-/

/-- Unfolding of the Boolean leap-year test. -/
theorem isLeap_iff (y : ℕ) :
    isLeap y = true ↔ (y % 4 = 0 ∧ (y % 100 ≠ 0 ∨ y % 400 = 0)) := by
  simp [isLeap]

set_option maxHeartbeats 1000000 in
/-- The day count before year `y + 1` extends that before year `y` by the
length of year `y`. -/
theorem daysBeforeYear_succ (y : ℕ) (hy : 1 ≤ y) :
    daysBeforeYear (y + 1) = daysBeforeYear y + yearLen y := by
  obtain ⟨n, rfl⟩ : ∃ n, y = n + 1 := ⟨y - 1, by omega⟩
  unfold daysBeforeYear yearLen
  cases h : isLeap (n + 1) with
  | false =>
    have h2 : ¬((n + 1) % 4 = 0 ∧ ((n + 1) % 100 ≠ 0 ∨ (n + 1) % 400 = 0)) := by
      rw [← isLeap_iff, h]; simp
    simp only [h, if_false, Bool.false_eq_true]
    omega
  | true =>
    have h2 : (n + 1) % 4 = 0 ∧ ((n + 1) % 100 ≠ 0 ∨ (n + 1) % 400 = 0) :=
      (isLeap_iff (n + 1)).mp h
    simp only [h, if_true]
    omega

/-- The day count before month `m + 1` extends that before month `m` by the
length of month `m`. -/
theorem daysBeforeMonth_succ (y m : ℕ) (hm : 1 ≤ m) :
    daysBeforeMonth y (m + 1) = daysBeforeMonth y m + daysInMonth y m := by
  obtain ⟨k, rfl⟩ : ∃ k, m = k + 1 := ⟨m - 1, by omega⟩
  rfl

/-- A year's length is the day count of its twelve months. -/
theorem yearLen_eq (y : ℕ) : yearLen y = daysBeforeMonth y 13 := by
  cases h : isLeap y <;> simp [yearLen, daysBeforeMonth, h] <;> decide

/-- Correctness of the fuelled year scan: enough fuel being available, it
returns the year containing the given day ordinal together with the
remaining day-of-year. -/
theorem findYear_spec (fuel : ℕ) : ∀ y n : ℕ, 1 ≤ y →
    n + daysBeforeYear y < daysBeforeYear (y + fuel + 1) →
    daysBeforeYear (findYear fuel y n).1 + (findYear fuel y n).2 =
      daysBeforeYear y + n ∧
    (findYear fuel y n).2 < yearLen (findYear fuel y n).1 ∧
    1 ≤ (findYear fuel y n).1 := by
  induction fuel with
  | zero =>
    intro y n hy hb
    have hs := daysBeforeYear_succ y hy
    have hb2 : n + daysBeforeYear y < daysBeforeYear (y + 1) := by
      have he : y + 0 + 1 = y + 1 := by omega
      rw [he] at hb; exact hb
    simp only [findYear]
    exact ⟨by trivial, by omega, hy⟩
  | succ fuel ih =>
    intro y n hy hb
    simp only [findYear]
    split
    · next h => exact ⟨by trivial, h, hy⟩
    · next h =>
      have hs := daysBeforeYear_succ y hy
      have harg : y + 1 + fuel + 1 = y + (fuel + 1) + 1 := by omega
      have hb2 : (n - yearLen y) + daysBeforeYear (y + 1) <
          daysBeforeYear (y + 1 + fuel + 1) := by
        rw [harg]; omega
      obtain ⟨e1, e2, e3⟩ := ih (y + 1) (n - yearLen y) (by omega) hb2
      exact ⟨by omega, e2, e3⟩

/-- Correctness of the fuelled month scan within a fixed year. -/
theorem findMonth_spec (y : ℕ) (fuel : ℕ) : ∀ m n : ℕ, 1 ≤ m →
    n + daysBeforeMonth y m < daysBeforeMonth y (m + fuel + 1) →
    daysBeforeMonth y (findMonth y fuel m n).1 + (findMonth y fuel m n).2 =
      daysBeforeMonth y m + n ∧
    (findMonth y fuel m n).2 < daysInMonth y (findMonth y fuel m n).1 ∧
    1 ≤ (findMonth y fuel m n).1 ∧
    (findMonth y fuel m n).1 ≤ m + fuel := by
  induction fuel with
  | zero =>
    intro m n hm hb
    have hs := daysBeforeMonth_succ y m hm
    have hb2 : n + daysBeforeMonth y m < daysBeforeMonth y (m + 1) := by
      have he : m + 0 + 1 = m + 1 := by omega
      rw [he] at hb; exact hb
    simp only [findMonth]
    exact ⟨by trivial, by omega, hm, by omega⟩
  | succ fuel ih =>
    intro m n hm hb
    simp only [findMonth]
    split
    · next h => exact ⟨by trivial, h, hm, by omega⟩
    · next h =>
      have hs := daysBeforeMonth_succ y m hm
      have harg : m + 1 + fuel + 1 = m + (fuel + 1) + 1 := by omega
      have hb2 : (n - daysInMonth y m) + daysBeforeMonth y (m + 1) <
          daysBeforeMonth y (m + 1 + fuel + 1) := by
        rw [harg]; omega
      obtain ⟨e1, e2, e3, e4⟩ := ih (m + 1) (n - daysInMonth y m) (by omega) hb2
      exact ⟨by omega, e2, e3, by omega⟩

/-- `fromDays` inverts the day-ordinal computation and lands on a valid
calendar date. -/
theorem fromDays_spec (n : ℕ) (hn : n < daysBeforeYear 10000) :
    daysBeforeYear (fromDays n).1 + daysBeforeMonth (fromDays n).1 (fromDays n).2.1 +
      ((fromDays n).2.2 - 1) = n ∧
    1 ≤ (fromDays n).1 ∧
    1 ≤ (fromDays n).2.1 ∧ (fromDays n).2.1 ≤ 12 ∧
    1 ≤ (fromDays n).2.2 ∧ (fromDays n).2.2 ≤ daysInMonth (fromDays n).1 (fromDays n).2.1 := by
  have hone : daysBeforeYear 1 = 0 := rfl
  have hy := findYear_spec 9998 1 n (le_refl 1) (by
    have he : (1 : ℕ) + 9998 + 1 = 10000 := by norm_num
    rw [he, hone]; omega)
  obtain ⟨hy1, hy2, hy3⟩ := hy
  have hm1 : daysBeforeMonth (findYear 9998 1 n).1 1 = 0 := rfl
  have hm := findMonth_spec (findYear 9998 1 n).1 11 1 (findYear 9998 1 n).2
    (le_refl 1) (by
      have he : (1 : ℕ) + 11 + 1 = 13 := by norm_num
      rw [he, hm1, ← yearLen_eq]; omega)
  obtain ⟨hma, hmb, hmc, hmd⟩ := hm
  simp only [fromDays]
  refine ⟨by omega, hy3, hmc, by omega, by omega, by omega⟩

/-- `fromMicros` is a right inverse of `NaiveDT.toMicros`: a successfully
converted microsecond count is the timeline position of the resulting
wall-clock value. -/
theorem fromMicros_toMicros (t : ℤ) (w : NaiveDT) (h : fromMicros t = some w) :
    w.toMicros = t := by
  unfold fromMicros at h
  split at h
  · next hc =>
    obtain ⟨hc1, hc2⟩ := hc
    injection h with h
    subst h
    have hmaxN : (maxDT.toMicrosN : ℤ) = 315537897599999999 := by decide
    have h10000 : daysBeforeYear 10000 = 3652059 := by decide
    have hday : t.toNat / 86400000000 < daysBeforeYear 10000 := by omega
    have hfd := fromDays_spec (t.toNat / 86400000000) hday
    obtain ⟨hfd1, hfd2, hfd3, hfd4, hfd5, hfd6⟩ := hfd
    simp only [NaiveDT.toMicros, NaiveDT.toMicrosN, toDays]
    omega
  · exact absurd h (by simp)

/-- Soundness of the two-digit group: the consumed characters are two
digits sitting between the input and the remainder. -/
theorem parse2_sound {cs : List Char} {v : ℕ} {con rest : List Char}
    (h : parse2 cs = some (v, con, rest)) :
    ∃ a b, con = [a, b] ∧ cs = a :: b :: rest ∧ isDig a = true ∧ isDig b = true := by
  rcases cs with _ | ⟨a, _ | ⟨b, t⟩⟩
  · simp [parse2] at h
  · simp [parse2] at h
  · simp only [parse2] at h
    split at h
    · next hd =>
      simp only [Option.some.injEq, Prod.mk.injEq] at h
      obtain ⟨h1, h2, h3⟩ := h
      subst h2; subst h3
      simp only [Bool.and_eq_true] at hd
      exact ⟨a, b, rfl, rfl, hd.1, hd.2⟩
    · exact Option.noConfusion h

/-- Soundness of the four-digit year group. -/
theorem parse4_sound {cs : List Char} {v : ℕ} {con rest : List Char}
    (h : parse4 cs = some (v, con, rest)) :
    ∃ a b c d, con = [a, b, c, d] ∧ cs = a :: b :: c :: d :: rest ∧
      isDig a = true ∧ isDig b = true ∧ isDig c = true ∧ isDig d = true := by
  rcases cs with _ | ⟨a, _ | ⟨b, _ | ⟨c, _ | ⟨d, t⟩⟩⟩⟩
  · simp [parse4] at h
  · simp [parse4] at h
  · simp [parse4] at h
  · simp [parse4] at h
  · simp only [parse4] at h
    split at h
    · next hd =>
      simp only [Option.some.injEq, Prod.mk.injEq] at h
      obtain ⟨h1, h2, h3⟩ := h
      subst h2; subst h3
      simp only [Bool.and_eq_true] at hd
      exact ⟨a, b, c, d, rfl, rfl, hd.1.1.1, hd.1.1.2, hd.1.2, hd.2⟩
    · exact Option.noConfusion h

/-- Soundness of the date part: ten consumed characters of the shape
`dddd-dd-dd`. -/
theorem parseDate_sound {cs : List Char} {y mo d : ℕ} {con rest : List Char}
    (h : parseDate cs = some ((y, mo, d), con, rest)) :
    cs = con ++ rest ∧
    ∃ a b c e f g k l,
      con = [a, b, c, e, '-', f, g, '-', k, l] ∧
      isDig a = true ∧ isDig b = true ∧ isDig c = true ∧ isDig e = true ∧
      isDig f = true ∧ isDig g = true ∧ isDig k = true ∧ isDig l = true := by
  unfold parseDate at h
  split at h
  · exact Option.noConfusion h
  · next y0 c1 r1 heq4 =>
    split at h
    · next r2 =>
      split at h
      · exact Option.noConfusion h
      · next mo0 c2 r3 heq2 =>
        split at h
        · next r4 =>
          split at h
          · exact Option.noConfusion h
          · next d0 c3 r5 heq3 =>
            simp only [Option.some.injEq, Prod.mk.injEq] at h
            obtain ⟨⟨hy, hmo, hd⟩, hcon, hrest⟩ := h
            subst hcon; subst hrest
            obtain ⟨a, b, c, e, hc1, hcs, da, db, dc, de⟩ := parse4_sound heq4
            obtain ⟨f, g, hc2, hr2, df, dg⟩ := parse2_sound heq2
            obtain ⟨k, l, hc3, hr4, dk, dl⟩ := parse2_sound heq3
            subst hc1; subst hc2; subst hc3
            subst hcs; subst hr2; subst hr4
            exact ⟨by simp, a, b, c, e, f, g, k, l, by simp, da, db, dc, de, df, dg, dk, dl⟩
        · exact Option.noConfusion h
    · exact Option.noConfusion h

/-- Soundness of the optional zone group: it always consumes either nothing,
a single `Z`, or a signed `HH:MM` offset. -/
theorem parseZone_sound {cs : List Char} {zp : ZonePart} {con rest : List Char}
    (h : parseZone cs = (zp, con, rest)) :
    cs = con ++ rest ∧
    (con = [] ∨ con = ['Z'] ∨
      ∃ sg h1 h2 m1 m2, con = [sg, h1, h2, ':', m1, m2] ∧ (sg = '+' ∨ sg = '-') ∧
        isDig h1 = true ∧ isDig h2 = true ∧ isDig m1 = true ∧ isDig m2 = true) := by
  unfold parseZone at h
  split at h
  · simp only [Prod.mk.injEq] at h
    obtain ⟨h1, h2, h3⟩ := h
    subst h2; subst h3
    exact ⟨rfl, Or.inr (Or.inl rfl)⟩
  · next r1 c hguard =>
    split at h
    · next hc =>
      split at h
      · next hpm c1 r2 heq2 =>
        split at h
        · next r3 =>
          split at h
          · next mi c2 r4 heq3 =>
            simp only [Prod.mk.injEq] at h
            obtain ⟨h1, h2, h3⟩ := h
            subst h2; subst h3
            obtain ⟨a, b, hc1, hr1, da, db⟩ := parse2_sound heq2
            obtain ⟨e, f, hc2, hr3, de, df⟩ := parse2_sound heq3
            subst hc1; subst hc2; subst hr1; subst hr3
            rcases hc with rfl | rfl
            · exact ⟨by simp, Or.inr (Or.inr ⟨'+', a, b, e, f, by simp, Or.inl rfl, da, db, de, df⟩)⟩
            · exact ⟨by simp, Or.inr (Or.inr ⟨'-', a, b, e, f, by simp, Or.inr rfl, da, db, de, df⟩)⟩
          · simp only [Prod.mk.injEq] at h
            obtain ⟨h1, h2, h3⟩ := h
            subst h2; subst h3
            exact ⟨rfl, Or.inl rfl⟩
        · simp only [Prod.mk.injEq] at h
          obtain ⟨h1, h2, h3⟩ := h
          subst h2; subst h3
          exact ⟨rfl, Or.inl rfl⟩
      · simp only [Prod.mk.injEq] at h
        obtain ⟨h1, h2, h3⟩ := h
        subst h2; subst h3
        exact ⟨rfl, Or.inl rfl⟩
    · simp only [Prod.mk.injEq] at h
      obtain ⟨h1, h2, h3⟩ := h
      subst h2; subst h3
      exact ⟨rfl, Or.inl rfl⟩
  · simp only [Prod.mk.injEq] at h
    obtain ⟨h1, h2, h3⟩ := h
    subst h2; subst h3
    exact ⟨rfl, Or.inl rfl⟩

/-- Soundness of the optional time group: when it matches, the consumed
characters have the shape `[T or space]dd:dd:dd` with an optional `.d`. -/
theorem parseTime_sound {cs : List Char} {tp : TimePart} {con rest : List Char}
    (h : parseTime cs = some (tp, con, rest)) :
    cs = con ++ rest ∧
    ∃ c h1 h2 m1 m2 s1 s2 tail,
      con = c :: h1 :: h2 :: ':' :: m1 :: m2 :: ':' :: s1 :: s2 :: tail ∧
      (c = 'T' ∨ c = ' ') ∧ isDig h1 = true ∧ isDig h2 = true ∧ isDig m1 = true ∧
      isDig m2 = true ∧ isDig s1 = true ∧ isDig s2 = true ∧
      (tail = [] ∨ ∃ f1, tail = ['.', f1] ∧ isDig f1 = true) := by
  rcases cs with _ | ⟨c, r0⟩
  · simp [parseTime] at h
  · simp only [parseTime] at h
    split at h
    · next hsep =>
      split at h
      · exact Option.noConfusion h
      · next hh c1 r1 heqh =>
        split at h
        · next r2 =>
          split at h
          · exact Option.noConfusion h
          · next mi c2 r3 heqm =>
            split at h
            · next r4 =>
              split at h
              · exact Option.noConfusion h
              · next ss c3 r5 heqs =>
                obtain ⟨a1, b1, hc1, hr0, d1, d2⟩ := parse2_sound heqh
                obtain ⟨a2, b2, hc2, hr2, d3, d4⟩ := parse2_sound heqm
                obtain ⟨a3, b3, hc3, hr4, d5, d6⟩ := parse2_sound heqs
                subst hc1; subst hc2; subst hc3
                split at h
                · next dch r6 =>
                  split at h
                  · next hdig =>
                    simp only [Option.some.injEq, Prod.mk.injEq] at h
                    obtain ⟨h1, h2, h3⟩ := h; subst h2; subst h3
                    subst hr0; subst hr2; subst hr4
                    refine ⟨by simp, c, a1, b1, a2, b2, a3, b3, ['.', dch], by simp,
                      hsep, d1, d2, d3, d4, d5, d6, Or.inr ⟨dch, rfl, hdig⟩⟩
                  · simp only [Option.some.injEq, Prod.mk.injEq] at h
                    obtain ⟨h1, h2, h3⟩ := h; subst h2; subst h3
                    subst hr0; subst hr2; subst hr4
                    refine ⟨by simp, c, a1, b1, a2, b2, a3, b3, [], by simp,
                      hsep, d1, d2, d3, d4, d5, d6, Or.inl rfl⟩
                · simp only [Option.some.injEq, Prod.mk.injEq] at h
                  obtain ⟨h1, h2, h3⟩ := h; subst h2; subst h3
                  subst hr0; subst hr2; subst hr4
                  refine ⟨by simp, c, a1, b1, a2, b2, a3, b3, [], by simp,
                    hsep, d1, d2, d3, d4, d5, d6, Or.inl rfl⟩
            · exact Option.noConfusion h
        · exact Option.noConfusion h
    · exact Option.noConfusion h

/-- The grammar checker accepts a date-shaped prefix and hands back the
remainder. -/
theorem chkDate_shape {a b c e f g k l : Char} (da : isDig a = true)
    (db : isDig b = true) (dc : isDig c = true) (de : isDig e = true)
    (df : isDig f = true) (dg : isDig g = true) (dk : isDig k = true)
    (dl : isDig l = true) (t : List Char) :
    chkDate ([a, b, c, e, '-', f, g, '-', k, l] ++ t) = some t := by
  simp [chkDate, da, db, dc, de, df, dg, dk, dl]

/-- The zone checker accepts exactly the suffixes the zone group consumes. -/
theorem chkZone_shape {zcon : List Char}
    (hz : zcon = [] ∨ zcon = ['Z'] ∨
      ∃ sg h1 h2 m1 m2, zcon = [sg, h1, h2, ':', m1, m2] ∧ (sg = '+' ∨ sg = '-') ∧
        isDig h1 = true ∧ isDig h2 = true ∧ isDig m1 = true ∧ isDig m2 = true) :
    chkZone zcon = some [] := by
  rcases hz with rfl | rfl | ⟨sg, h1, h2, m1, m2, rfl, hsg, e1, e2, e3, e4⟩
  · rfl
  · rfl
  · rcases hsg with rfl | rfl <;> simp [chkZone, e1, e2, e3, e4]

/-- The time checker passes an absent time part through: no zone suffix
starts with the time separator. -/
theorem chkTime_skip {zcon : List Char}
    (hz : zcon = [] ∨ zcon = ['Z'] ∨
      ∃ sg h1 h2 m1 m2, zcon = [sg, h1, h2, ':', m1, m2] ∧ (sg = '+' ∨ sg = '-') ∧
        isDig h1 = true ∧ isDig h2 = true ∧ isDig m1 = true ∧ isDig m2 = true) :
    chkTime zcon = some zcon := by
  rcases hz with rfl | rfl | ⟨sg, h1, h2, m1, m2, rfl, hsg, e1, e2, e3, e4⟩
  · rfl
  · rfl
  · rcases hsg with rfl | rfl <;> rfl

/-- The time checker accepts a time-shaped segment followed by a zone
suffix: no zone suffix begins with a fractional-second marker. -/
theorem chkTime_time {zcon : List Char}
    (hz : zcon = [] ∨ zcon = ['Z'] ∨
      ∃ sg h1 h2 m1 m2, zcon = [sg, h1, h2, ':', m1, m2] ∧ (sg = '+' ∨ sg = '-') ∧
        isDig h1 = true ∧ isDig h2 = true ∧ isDig m1 = true ∧ isDig m2 = true)
    {c h1 h2 m1 m2 s1 s2 : Char} {tail : List Char}
    (hsep : c = 'T' ∨ c = ' ') (e1 : isDig h1 = true) (e2 : isDig h2 = true)
    (e3 : isDig m1 = true) (e4 : isDig m2 = true) (e5 : isDig s1 = true)
    (e6 : isDig s2 = true)
    (htail : tail = [] ∨ ∃ f1, tail = ['.', f1] ∧ isDig f1 = true) :
    chkTime ((c :: h1 :: h2 :: ':' :: m1 :: m2 :: ':' :: s1 :: s2 :: tail) ++ zcon) =
      some zcon := by
  rcases htail with rfl | ⟨f1, rfl, hf⟩
  · rcases hz with rfl | rfl | ⟨sg, z1, z2, z3, z4, rfl, hsg, f1, f2, f3, f4⟩
    · rcases hsep with rfl | rfl <;> simp [chkTime, e1, e2, e3, e4, e5, e6]
    · rcases hsep with rfl | rfl <;> simp [chkTime, e1, e2, e3, e4, e5, e6]
    · rcases hsg with rfl | rfl <;> rcases hsep with rfl | rfl <;>
        simp [chkTime, e1, e2, e3, e4, e5, e6]
  · rcases hsep with rfl | rfl <;> simp [chkTime, e1, e2, e3, e4, e5, e6, hf]

/-- Soundness of the `_datetime_regex` model: a successful match consumes a
prefix of the input that the spec grammar generates in full. -/
theorem parseDT_sound {cs : List Char} {p : ParsedDT} {con rest : List Char}
    (h : parseDT cs = some (p, con, rest)) :
    cs = con ++ rest ∧ grammarFull con = true := by
  unfold parseDT at h
  split at h
  · exact Option.noConfusion h
  · next y mo d dcon r1 heqD =>
    split at h
    · next tp tcon r2 heqT =>
      simp only [Option.some.injEq, Prod.mk.injEq] at h
      obtain ⟨hp, hcon, hrest⟩ := h
      subst hcon; subst hrest
      obtain ⟨hcsD, a, b, c, e, f, g, k, l, hdcon, d1, d2, d3, d4, d5, d6, d7, d8⟩ :=
        parseDate_sound heqD
      obtain ⟨hr1, c0, t1, t2, t3, t4, t5, t6, tail, htcon, hsep, e1, e2, e3, e4, e5, e6, htail⟩ :=
        parseTime_sound heqT
      rcases hq : parseZone r2 with ⟨z0, zcon, zrest⟩
      obtain ⟨hr2, hzshape⟩ := parseZone_sound hq
      constructor
      · rw [hcsD, hr1, hr2]; simp
      · subst hdcon; subst htcon
        have hd := chkDate_shape d1 d2 d3 d4 d5 d6 d7 d8
          ((c0 :: t1 :: t2 :: ':' :: t3 :: t4 :: ':' :: t5 :: t6 :: tail) ++ zcon)
        have ht := chkTime_time hzshape hsep e1 e2 e3 e4 e5 e6 htail
        have hzz := chkZone_shape hzshape
        simp only [List.cons_append, List.nil_append] at hd ht
        simp [grammarFull, hd, ht, hzz]
    · next heqT =>
      simp only [Option.some.injEq, Prod.mk.injEq] at h
      obtain ⟨hp, hcon, hrest⟩ := h
      subst hcon; subst hrest
      obtain ⟨hcsD, a, b, c, e, f, g, k, l, hdcon, d1, d2, d3, d4, d5, d6, d7, d8⟩ :=
        parseDate_sound heqD
      rcases hq : parseZone r1 with ⟨z0, zcon, zrest⟩
      obtain ⟨hr1, hzshape⟩ := parseZone_sound hq
      constructor
      · rw [hcsD, hr1]; simp
      · subst hdcon
        have hd := chkDate_shape d1 d2 d3 d4 d5 d6 d7 d8 zcon
        have ht := chkTime_skip hzshape
        have hzz := chkZone_shape hzshape
        simp only [List.cons_append, List.nil_append] at hd
        simp [grammarFull, hd, ht, hzz]

/-- With `include_tz = false`, `_decode_datetime` never consults the host
timezone: the `astimezone` round-trip is irrelevant to its result. -/
theorem _decode_datetime_az_false (az1 az2 : NaiveDT → Option NaiveDT) (s : String) :
    _decode_datetime az1 false s = _decode_datetime az2 false s := by
  unfold _decode_datetime
  cases hp : parseDT s.data with
  | none => rfl
  | some v =>
    obtain ⟨p, con, rest⟩ := v
    split <;> rfl

/-- With `include_tz = false`, `_decode_time` never consults the host
timezone. -/
theorem _decode_time_az_false (az1 az2 : NaiveDT → Option NaiveDT) (s : String) :
    _decode_time az1 false s = _decode_time az2 false s := by
  unfold _decode_time
  rw [_decode_datetime_az_false az1 az2]

/-- With `include_tz = false`, `_decode_date` never consults the host
timezone. -/
theorem _decode_date_az_false (az1 az2 : NaiveDT → Option NaiveDT) (s : String) :
    _decode_date az1 false s = _decode_date az2 false s := by
  unfold _decode_date
  cases strptimeYmd s with
  | some w => rfl
  | none => exact _decode_datetime_az_false az1 az2 s

/-- The only error `_get_decoder` raises is the unknown-data-type error,
naming the offending data type. -/
theorem _get_decoder_error_shape {dt interp : String} {tz : Bool} {e : DecodeErr}
    (h : _get_decoder dt interp tz = .error e) : e = .unknownDataType dt := by
  unfold _get_decoder at h
  split at h
  · exact Except.noConfusion h
  · split at h
    · exact Except.noConfusion h
    · split at h
      · exact Except.noConfusion h
      · split at h
        · exact Except.noConfusion h
        · split at h
          · exact Except.noConfusion h
          · split at h
            · exact Except.noConfusion h
            · injection h with h; exact h.symm

/-- A data type outside the enumerated set, with no lookup interpretation,
resolves to the unknown-data-type error. -/
theorem _get_decoder_unknown {dt interp : String} {tz : Bool}
    (h1 : interp ≠ lookupTYPE) (h2 : interp ∉ lookupMultiTYPES)
    (h3 : dt ∉ knownDataTypes) :
    _get_decoder dt interp tz = .error (.unknownDataType dt) := by
  simp only [knownDataTypes, List.mem_cons, List.not_mem_nil, or_false, not_or] at h3
  obtain ⟨n1, n2, n3, n4, n5, n6, n7, n8, n9, n10, n11, n12⟩ := h3
  have hfind : plainDECODERS.find? (fun kv => kv.1 = dt) = none := by
    rw [List.find?_eq_none]
    intro x hx
    simp only [plainDECODERS, List.mem_cons, List.not_mem_nil, or_false] at hx
    rcases hx with rfl | rfl | rfl | rfl | rfl | rfl | rfl | rfl | rfl <;>
      simp [Ne.symm n4, Ne.symm n5, Ne.symm n6, Ne.symm n7, Ne.symm n8,
        Ne.symm n9, Ne.symm n10, Ne.symm n11, Ne.symm n12]
  simp [_get_decoder, h1, h2, n1, n2, n3, hfind]

/-- A successfully built `mapE` ran its function successfully on every
element. -/
theorem mapE_ok_mem {α β : Type} {g : α → Except DecodeErr β} {l : List α}
    {out : List β} (h : mapE g l = .ok out) {x : α} (hx : x ∈ l) :
    ∃ y, g x = .ok y := by
  induction l generalizing out with
  | nil => cases hx
  | cons a t ih =>
    simp only [mapE] at h
    split at h
    · exact Except.noConfusion h
    · next y hy =>
      split at h
      · exact Except.noConfusion h
      · next ys hys =>
        rcases List.mem_cons.mp hx with rfl | hx2
        · exact ⟨y, hy⟩
        · exact ih hys hx2

/-- If the function fails on some element, `mapE` fails, and the error it
reports is an error the function produced on some element of the list. -/
theorem mapE_error_of_mem {α β : Type} {g : α → Except DecodeErr β} {l : List α}
    {x : α} {e : DecodeErr} (hx : x ∈ l) (hgx : g x = .error e) :
    ∃ x2 e2, x2 ∈ l ∧ g x2 = .error e2 ∧ mapE g l = .error e2 := by
  induction l with
  | nil => cases hx
  | cons a t ih =>
    rcases List.mem_cons.mp hx with rfl | hx2
    · exact ⟨x, e, List.mem_cons_self x t, hgx, by simp only [mapE, hgx]⟩
    · cases hga : g a with
      | error e0 => exact ⟨a, e0, List.mem_cons_self a t, hga, by simp only [mapE, hga]⟩
      | ok y =>
        obtain ⟨x2, e2, hmem, hg2, hmap⟩ := ih hx2
        exact ⟨x2, e2, List.mem_cons_of_mem a hmem, hg2, by simp only [mapE, hga, hmap]⟩

/-- Errors reported by `mapE` inherit any shape shared by all the errors the
function can produce on the list. -/
theorem mapE_error_shape {α β : Type} {g : α → Except DecodeErr β} {l : List α}
    (hshape : ∀ x e, x ∈ l → g x = .error e → ∃ f v c, e = .fieldError f v c)
    {e2 : DecodeErr} (h : mapE g l = .error e2) :
    ∃ f v c, e2 = .fieldError f v c := by
  induction l with
  | nil => simp [mapE] at h
  | cons a t ih =>
    simp only [mapE] at h
    split at h
    · next e0 hga =>
      injection h with h; subst h
      exact hshape a _ (List.mem_cons_self a t) hga
    · next y hy =>
      split at h
      · next e0 hmap =>
        injection h with h; subst h
        exact ih (fun x e hx hge => hshape x e (List.mem_cons_of_mem a hx) hge) hmap
      · exact Except.noConfusion h

/-- Every error leaving `decode_field` is the wrapping `ValueError` carrying
a field name, the raw value and a cause. -/
theorem decodeField_error_shape {ds : List (String × Decoder)}
    {az : NaiveDT → Option NaiveDT} {f v : String} {e : DecodeErr}
    (h : decodeField ds az f v = .error e) : ∃ a b c, e = .fieldError a b c := by
  unfold decodeField at h
  split at h
  · exact Except.noConfusion h
  · split at h
    · injection h with h; exact ⟨f, v, "KeyError", h.symm⟩
    · next d =>
      split at h
      · exact Except.noConfusion h
      · next e0 he => injection h with h; exact ⟨f, v, e0, h.symm⟩

/-- A datetime decoded with `include_tz = true` is always a zone-aware
value. -/
theorem _decode_datetime_true_aware {az : NaiveDT → Option NaiveDT} {s : String}
    {v : Value} (h : _decode_datetime az true s = .ok v) :
    ∃ w off, v = .aware w off := by
  unfold _decode_datetime at h
  split at h
  · exact Except.noConfusion h
  · next p con rest heq =>
    split at h
    · split at h
      · split at h
        · split at h
          · next w2 haz => injection h with h; exact ⟨w2, 0, h.symm⟩
          · exact Except.noConfusion h
        · split at h
          · next w2 haz =>
            split at h
            · injection h with h; exact ⟨w2, offsetMinutes p, h.symm⟩
            · exact Except.noConfusion h
          · exact Except.noConfusion h
      · next hcontra => exact absurd rfl hcontra
    · exact Except.noConfusion h

/-- C1: with `includeTimezone = true`, a successfully decoded temporal
literal is a zone-aware value whose wall-clock components equal the parsed
components, the attached zone being UTC (offset 0) for the `Z` suffix, the
literal's fixed offset otherwise, and offset 0 when no suffix was present —
provided the host timezone's `astimezone` round-trip fixes the parsed wall
clock (true of every fixed-offset host zone; a host-zone DST gap containing
the wall clock shifts it, see the counterexample). -/
theorem decode_datetime_include_tz_wall_clock
    (az : NaiveDT → Option NaiveDT) (s : String) (v : Value) (p : ParsedDT)
    (con rest : List Char)
    (hp : parseDT s.data = some (p, con, rest))
    (haz : az (mkWall p) = some (mkWall p))
    (h : _decode_datetime az true s = .ok v) :
    v = .aware (mkWall p) (tzOffsetOf p) := by
  unfold _decode_datetime at h
  split at h
  · exact Except.noConfusion h
  · next p2 con2 rest2 heq =>
    rw [hp] at heq
    simp only [Option.some.injEq, Prod.mk.injEq] at heq
    obtain ⟨hpe, hce, hre⟩ := heq
    subst hpe
    split at h
    · split at h
      · cases hz : p.zone with
        | z =>
          simp only [hz, haz, Except.ok.injEq] at h
          rw [← h]
          simp [tzOffsetOf, hz]
        | noZone =>
          have ho : offsetMinutes p = 0 := by simp [offsetMinutes, hz]
          simp only [hz, haz, ho] at h
          norm_num at h
          rw [← h]
          simp [tzOffsetOf, hz, ho]
        | off neg oh om =>
          simp only [hz, haz] at h
          split at h
          · simp only [Except.ok.injEq] at h
            rw [← h]
            simp [tzOffsetOf, hz]
          · exact Except.noConfusion h
      · next hcontra => exact absurd rfl hcontra
    · exact Except.noConfusion h

/-- C1 witness: decoding `"2020-05-01T12:00:00+05:00"` on a gap-free host
yields the zone-aware wall clock 12:00 at offset +05:00, whose instant is
2020-05-01 07:00:00 UTC. -/
theorem decode_datetime_include_tz_wall_clock_witness :
    _decode_datetime azId true "2020-05-01T12:00:00+05:00" =
      .ok (.aware ⟨2020, 5, 1, 12, 0, 0, 0⟩ 300) ∧
    (Value.aware ⟨2020, 5, 1, 12, 0, 0, 0⟩ 300 =
      .aware (mkWall ⟨2020, 5, 1, some ⟨'T', 12, 0, 0, none⟩, .off false 5 0⟩)
        (tzOffsetOf ⟨2020, 5, 1, some ⟨'T', 12, 0, 0, none⟩, .off false 5 0⟩)) ∧
    awareInstant ⟨2020, 5, 1, 12, 0, 0, 0⟩ 300 =
      NaiveDT.toMicros ⟨2020, 5, 1, 7, 0, 0, 0⟩ := by
  refine ⟨rfl, ?_, by decide⟩
  exact decode_datetime_include_tz_wall_clock azId "2020-05-01T12:00:00+05:00"
    (.aware ⟨2020, 5, 1, 12, 0, 0, 0⟩ 300)
    ⟨2020, 5, 1, some ⟨'T', 12, 0, 0, none⟩, .off false 5 0⟩ _ _ rfl rfl rfl

/-- C1 counterexample: on a host in America/New_York, the wall clock 02:30
of 2021-03-14 falls in the spring-forward gap, `astimezone()` moves it to
01:30, and the decoded zone-aware value does not carry the parsed wall-clock
components — so the claim does not hold for every host timezone. -/
theorem decode_datetime_include_tz_gap_counterexample :
    parseDT ("2021-03-14T02:30:00").data =
      some (⟨2021, 3, 14, some ⟨'T', 2, 30, 0, none⟩, .noZone⟩,
            ("2021-03-14T02:30:00").data, []) ∧
    mkWall ⟨2021, 3, 14, some ⟨'T', 2, 30, 0, none⟩, .noZone⟩ =
      ⟨2021, 3, 14, 2, 30, 0, 0⟩ ∧
    _decode_datetime azGapA true "2021-03-14T02:30:00" =
      .ok (.aware ⟨2021, 3, 14, 1, 30, 0, 0⟩ 0) ∧
    (⟨2021, 3, 14, 1, 30, 0, 0⟩ : NaiveDT) ≠ ⟨2021, 3, 14, 2, 30, 0, 0⟩ :=
  ⟨rfl, rfl, rfl, by decide⟩

/-- C2: with `includeTimezone = false`, a successfully decoded temporal
literal is a zone-naive value sitting on the timeline exactly at the parsed
wall clock minus the signed literal offset (minus nothing when no offset was
present); the host timezone is never consulted. -/
theorem decode_datetime_no_tz_offset_subtracted
    (az : NaiveDT → Option NaiveDT) (s : String) (v : Value)
    (h : _decode_datetime az false s = .ok v) :
    ∃ p con rest w, parseDT s.data = some (p, con, rest) ∧ v = .naive w ∧
      w.toMicros = (mkWall p).toMicros - offsetMinutes p * 60000000 := by
  unfold _decode_datetime at h
  split at h
  · exact Except.noConfusion h
  · next p con rest heq =>
    split at h
    · split at h
      · next hcontra => simp at hcontra
      · split at h
        · next w2 hfm =>
          injection h with h
          exact ⟨p, con, rest, w2, heq, h.symm, fromMicros_toMicros _ _ hfm⟩
        · exact Except.noConfusion h
    · exact Except.noConfusion h

set_option maxRecDepth 100000 in
/-- C2 witness: decoding `"2020-05-01T12:00:00+05:00"` with
`includeTimezone = false` yields the zone-naive value 2020-05-01 07:00:00
(the +05:00 offset subtracted). -/
theorem decode_datetime_no_tz_offset_subtracted_witness :
    _decode_datetime azId false "2020-05-01T12:00:00+05:00" =
      .ok (.naive ⟨2020, 5, 1, 7, 0, 0, 0⟩) ∧
    ∃ p con rest w,
      parseDT ("2020-05-01T12:00:00+05:00").data = some (p, con, rest) ∧
      (Value.naive ⟨2020, 5, 1, 7, 0, 0, 0⟩) = .naive w ∧
      w.toMicros = (mkWall p).toMicros - offsetMinutes p * 60000000 :=
  ⟨rfl, decode_datetime_no_tz_offset_subtracted azId "2020-05-01T12:00:00+05:00" _ rfl⟩

/-- C3 (amended): every resolved decoder is a deterministic function of the
raw string, and its result is independent of the host local timezone
whenever `includeTimezone` is false, the interpretation is a lookup tag, or
the data type is not temporal; the temporal decoders with
`includeTimezone = true` consult the host timezone through `astimezone()`
(see the counterexample). -/
theorem decoder_host_tz_independent_cases
    (dt interp : String) (includeTz : Bool) (d : Decoder)
    (hres : _get_decoder dt interp includeTz = .ok d)
    (hcase : includeTz = false ∨ interp = lookupTYPE ∨ interp ∈ lookupMultiTYPES ∨
      (dt ≠ "DateTime" ∧ dt ≠ "Time" ∧ dt ≠ "Date"))
    (az1 az2 : NaiveDT → Option NaiveDT) (v : String) :
    d az1 v = d az2 v := by
  unfold _get_decoder at hres
  split at hres
  · injection hres with hres; subst hres; rfl
  · next hn1 =>
    split at hres
    · injection hres with hres; subst hres; rfl
    · next hn2 =>
      split at hres
      · next hdt =>
        injection hres with hres; subst hres
        have hfalse : includeTz = false := by
          rcases hcase with hf | hle | hlm | ⟨hd1, _, _⟩
          · exact hf
          · exact absurd hle hn1
          · exact absurd hlm hn2
          · exact absurd hdt hd1
        subst hfalse
        exact _decode_datetime_az_false az1 az2 v
      · next hn3 =>
        split at hres
        · next hdt =>
          injection hres with hres; subst hres
          have hfalse : includeTz = false := by
            rcases hcase with hf | hle | hlm | ⟨_, hd2, _⟩
            · exact hf
            · exact absurd hle hn1
            · exact absurd hlm hn2
            · exact absurd hdt hd2
          subst hfalse
          exact _decode_time_az_false az1 az2 v
        · next hn4 =>
          split at hres
          · next hdt =>
            injection hres with hres; subst hres
            have hfalse : includeTz = false := by
              rcases hcase with hf | hle | hlm | ⟨_, _, hd3⟩
              · exact hf
              · exact absurd hle hn1
              · exact absurd hlm hn2
              · exact absurd hdt hd3
            subst hfalse
            exact _decode_date_az_false az1 az2 v
          · next hn5 =>
            split at hres
            · injection hres with hres; subst hres; rfl
            · exact Except.noConfusion hres

/-- C3 witness: the decoder resolved for a non-temporal type is the same
function of the raw string under any two host timezones. -/
theorem decoder_host_tz_independent_cases_witness :
    ∃ d, _get_decoder "Int" "" true = .ok d ∧ d azId "7" = d azGapA "7" := by
  refine ⟨_, rfl, ?_⟩
  exact decoder_host_tz_independent_cases "Int" "" true _ rfl
    (Or.inr (Or.inr (Or.inr (by decide)))) azId azGapA "7"

/-- C3 counterexample: the DateTime decoder resolved with
`includeTimezone = true` yields different results for the same raw string
on two hosts whose timezones differ (UTC versus America/New_York at a DST
gap), so resolved decoders are not independent of ambient host state. -/
theorem decoder_host_tz_dependent_counterexample :
    _get_decoder "DateTime" "" true = .ok (fun az v => _decode_datetime az true v) ∧
    _decode_datetime azGapB true "2020-03-08T02:30:00" =
      .ok (.aware ⟨2020, 3, 8, 1, 30, 0, 0⟩ 0) ∧
    _decode_datetime azId true "2020-03-08T02:30:00" =
      .ok (.aware ⟨2020, 3, 8, 2, 30, 0, 0⟩ 0) ∧
    _decode_datetime azGapB true "2020-03-08T02:30:00" ≠
      _decode_datetime azId true "2020-03-08T02:30:00" :=
  ⟨rfl, rfl, rfl, by decide⟩

/-- C4 (amended): a temporal literal decodes without error only if some
prefix of it is generated in full by the grammar
`YYYY-MM-DD[ or T]HH:MM:SS[.f][Z | (+|-)HH:MM]`; full-string membership is
not required because `_datetime_regex.match` is not anchored at the end of
the string (see the counterexample). -/
theorem decode_success_grammar_prefix
    (az : NaiveDT → Option NaiveDT) (includeTz : Bool) (s : String) (v : Value)
    (h : _decode_datetime az includeTz s = .ok v) :
    ∃ pre rest, s.data = pre ++ rest ∧ grammarFull pre = true := by
  unfold _decode_datetime at h
  split at h
  · exact Except.noConfusion h
  · next p con rest heq =>
    obtain ⟨hcs, hg⟩ := parseDT_sound heq
    exact ⟨con, rest, hcs, hg⟩

/-- C4 witness: a fully grammatical literal decodes and is its own grammar
prefix. -/
theorem decode_success_grammar_prefix_witness :
    ∃ pre rest, ("2020-05-01T12:00:00Z").data = pre ++ rest ∧ grammarFull pre = true :=
  decode_success_grammar_prefix azId true "2020-05-01T12:00:00Z"
    (.aware ⟨2020, 5, 1, 12, 0, 0, 0⟩ 0) rfl

set_option maxRecDepth 100000 in
/-- C4 counterexample: `"2020-05-01x"` is not generated by the grammar, yet
it decodes without error (to midnight 2020-05-01) because the regex match
ignores everything after the matched prefix. -/
theorem decode_success_not_full_grammar_counterexample :
    grammarFull ("2020-05-01x").data = false ∧
    _decode_datetime azId false "2020-05-01x" = .ok (.naive ⟨2020, 5, 1, 0, 0, 0, 0⟩) :=
  ⟨by decide, rfl⟩

/-- C5: `_decode_date` first attempts the bare `%Y-%m-%d` parse and falls
back to the full datetime grammar only when that parse fails; decoding
`"2020-05-01"` for a Date field yields calendar date 2020-05-01 with zero
time-of-day. -/
theorem decode_date_bare_date_first (az : NaiveDT → Option NaiveDT)
    (includeTz : Bool) (s : String) :
    _decode_date az includeTz s =
      (match strptimeYmd s with
       | some w => .ok (.naive w)
       | none => _decode_datetime az includeTz s) ∧
    _decode_date az includeTz "2020-05-01" = .ok (.naive ⟨2020, 5, 1, 0, 0, 0, 0⟩) :=
  ⟨rfl, rfl⟩

/-- C6: whenever the interpretation is the single-value lookup tag, the
resolved decoder is the string identity for every data type — no
data-type dispatch and no unknown-data-type error happens — and in
particular the value `"42"` of an `Int`-typed lookup field decodes to the
string `"42"`. -/
theorem lookup_interpretation_identity (dt : String) (includeTz : Bool) :
    ∃ d, _get_decoder dt "Lookup" includeTz = .ok d ∧
      (∀ az v, d az v = .ok (.str v)) ∧ (∀ az, d az "42" = .ok (.str "42")) :=
  ⟨fun _ v => .ok (.str v), rfl, fun _ _ => rfl, fun _ => rfl⟩

/-- C7: if the first row of a non-empty batch contains a field whose
metadata carries no lookup interpretation and a data type outside the
enumerated set, `decode` returns the unknown-data-type error raised at
decoder-resolution time: no row is decoded and no output is produced. -/
theorem unknown_data_type_aborts_batch
    (table : List FieldMeta) (includeTz : Bool) (az : NaiveDT → Option NaiveDT)
    (r0 : List (String × String)) (rows2 : List (List (String × String)))
    (f : String)
    (hf : f ∈ r0.map Prod.fst)
    (hi1 : (metaFor table f).2 ≠ lookupTYPE)
    (hi2 : (metaFor table f).2 ∉ lookupMultiTYPES)
    (hdt : (metaFor table f).1 ∉ knownDataTypes) :
    ∃ dt2, decode table includeTz az (r0 :: rows2) = .error (.unknownDataType dt2) := by
  have hgf : (match _get_decoder (metaFor table f).1 (metaFor table f).2 includeTz with
      | Except.ok d => Except.ok (f, d)
      | Except.error e => Except.error e) =
      Except.error (DecodeErr.unknownDataType (metaFor table f).1) := by
    rw [_get_decoder_unknown hi1 hi2 hdt]
  obtain ⟨x2, e2, hmem, hg2, hmap⟩ :=
    @mapE_error_of_mem String (String × Decoder)
      (fun f2 => match _get_decoder (metaFor table f2).1 (metaFor table f2).2 includeTz with
        | Except.ok d => Except.ok (f2, d)
        | Except.error e => Except.error e)
      (r0.map Prod.fst) f (DecodeErr.unknownDataType (metaFor table f).1) hf hgf
  have hshape : ∃ d2, e2 = DecodeErr.unknownDataType d2 := by
    revert hg2
    cases hq : _get_decoder (metaFor table x2).1 (metaFor table x2).2 includeTz with
    | ok d0 => intro hg2; simp [hq] at hg2
    | error e0 =>
      intro hg2
      simp only [hq] at hg2
      injection hg2 with hg2
      exact ⟨(metaFor table x2).1, by rw [← hg2, _get_decoder_error_shape hq]⟩
  obtain ⟨d2, rfl⟩ := hshape
  refine ⟨d2, ?_⟩
  have hbd : buildDecoders table includeTz (r0.map Prod.fst) =
      Except.error (DecodeErr.unknownDataType d2) := hmap
  simp only [decode]
  rw [hbd]

/-- C7 witness: a `Blob`-typed field in the first row aborts the whole
batch with the unknown-data-type error before any value is decoded. -/
theorem unknown_data_type_aborts_batch_witness :
    ∃ dt2, decode [⟨"X", "Blob", ""⟩] false azId [[("X", "1")]] =
      .error (.unknownDataType dt2) :=
  unknown_data_type_aborts_batch [⟨"X", "Blob", ""⟩] false azId [("X", "1")] [] "X"
    (by decide) (by decide) (by decide) (by decide)

/-- C8: for every decoder set, host timezone and field, decoding the empty
raw string yields the absence-of-value marker without ever invoking the
field's decoder — the statement holds for arbitrary decoder maps, including
ones whose decoder would fail on the empty string. -/
theorem empty_string_decodes_none (ds : List (String × Decoder))
    (az : NaiveDT → Option NaiveDT) (f : String) :
    decodeField ds az f "" = .ok none := rfl

/-- C9: an exception raised while decoding a single non-empty value is
wrapped into a decode error naming the field and the raw value and carrying
the original message as its cause, and any such failure aborts the whole
`decode` call with a field decode error: no partial row output exists. -/
theorem field_error_wraps_and_aborts
    (table : List FieldMeta) (includeTz : Bool) (az : NaiveDT → Option NaiveDT)
    (r0 : List (String × String)) (rows2 : List (List (String × String)))
    (ds : List (String × Decoder)) (r : List (String × String)) (f v : String)
    (d : Decoder) (e : String)
    (hb : buildDecoders table includeTz (r0.map Prod.fst) = .ok ds)
    (hr : r ∈ r0 :: rows2)
    (hv : v ≠ "")
    (hl : lookupDecoder ds f = some d)
    (hd : d az v = .error e)
    (hfv : (f, v) ∈ r) :
    decodeField ds az f v = .error (.fieldError f v e) ∧
    ∃ f2 v2 c2, decode table includeTz az (r0 :: rows2) =
      .error (.fieldError f2 v2 c2) := by
  have hdf : decodeField ds az f v = .error (.fieldError f v e) := by
    simp only [decodeField, if_neg hv, hl, hd]
  have hgin : (match decodeField ds az (f, v).1 (f, v).2 with
      | Except.ok x => Except.ok ((f, v).1, x)
      | Except.error e0 => Except.error e0) =
      Except.error (DecodeErr.fieldError f v e) := by
    simp only [hdf]
  obtain ⟨x2, e2, hmem2, hg2, hmap2⟩ :=
    @mapE_error_of_mem (String × String) (String × Option Value)
      (fun fv => match decodeField ds az fv.1 fv.2 with
        | Except.ok x => Except.ok (fv.1, x)
        | Except.error e0 => Except.error e0)
      r (f, v) (DecodeErr.fieldError f v e) hfv hgin
  obtain ⟨row2, e3, hmem3, hg3, hmap3⟩ :=
    @mapE_error_of_mem (List (String × String)) (List (String × Option Value))
      (fun row => mapE (fun fv => match decodeField ds az fv.1 fv.2 with
        | Except.ok x => Except.ok (fv.1, x)
        | Except.error e0 => Except.error e0) row)
      (r0 :: rows2) r e2 hr hmap2
  have hshape3 : ∃ a b c, e3 = DecodeErr.fieldError a b c := by
    refine mapE_error_shape ?_ hg3
    intro x e0 hx hge
    revert hge
    cases hq : decodeField ds az x.1 x.2 with
    | ok y => intro hge; simp [hq] at hge
    | error e1 =>
      intro hge
      simp only [hq] at hge
      injection hge with hge
      obtain ⟨a, b, c, hshape⟩ := decodeField_error_shape hq
      exact ⟨a, b, c, by rw [← hge, hshape]⟩
  obtain ⟨a, b, c, rfl⟩ := hshape3
  refine ⟨hdf, a, b, c, ?_⟩
  simp only [decode]
  rw [hb]
  exact hmap3

/-- C9 witness: a non-numeric value of an `Int` field is wrapped into a
field decode error naming field `A` and value `x` with the underlying
`ValueError` as cause, and the batch aborts with a field decode error. -/
theorem field_error_wraps_and_aborts_witness :
    ∃ ds d, buildDecoders [⟨"A", "Int", ""⟩] false ["A"] = .ok ds ∧
      lookupDecoder ds "A" = some d ∧
      d azId "x" = .error "ValueError: invalid literal for int with base 10: x" ∧
      (decodeField ds azId "A" "x" =
        .error (.fieldError "A" "x" "ValueError: invalid literal for int with base 10: x") ∧
       ∃ f2 v2 c2, decode [⟨"A", "Int", ""⟩] false azId [[("A", "x")]] =
         .error (.fieldError f2 v2 c2)) := by
  refine ⟨_, _, rfl, rfl, rfl, ?_⟩
  exact field_error_wraps_and_aborts [⟨"A", "Int", ""⟩] false azId [("A", "x")] []
    _ [("A", "x")] "A" "x" _ "ValueError: invalid literal for int with base 10: x"
    rfl (by simp) (by decide) rfl rfl (by simp)

/-- C10: for a Date-typed field with `includeTimezone = true`, a value in
bare `YYYY-MM-DD` form decodes to a zone-naive datetime (the flag has no
effect on the bare-date branch), while a Date value that fails the bare
parse and decodes through the full datetime path yields a zone-aware value
— the zone-awareness of decoded Date values depends on the input's shape. -/
theorem date_zone_awareness_depends_on_shape :
    (∀ (az : NaiveDT → Option NaiveDT) (s : String) (w : NaiveDT),
       strptimeYmd s = some w → _decode_date az true s = .ok (.naive w)) ∧
    (∀ (az : NaiveDT → Option NaiveDT) (s : String) (v : Value),
       strptimeYmd s = none → _decode_date az true s = .ok v →
       ∃ w off, v = .aware w off) := by
  constructor
  · intro az s w hs
    simp only [_decode_date, hs]
  · intro az s v hs h
    simp only [_decode_date, hs] at h
    exact _decode_datetime_true_aware h

/-- C10 witness: `"2020-05-01"` decodes zone-naive even with
`includeTimezone = true`, while `"2020-05-01T12:00:00"` (bare parse fails)
decodes zone-aware. -/
theorem date_zone_awareness_depends_on_shape_witness :
    _decode_date azId true "2020-05-01" = .ok (.naive ⟨2020, 5, 1, 0, 0, 0, 0⟩) ∧
    ∃ w off, _decode_date azId true "2020-05-01T12:00:00" = .ok (.aware w off) := by
  constructor
  · exact date_zone_awareness_depends_on_shape.1 azId "2020-05-01"
      ⟨2020, 5, 1, 0, 0, 0, 0⟩ rfl
  · obtain ⟨w, off, hw⟩ := date_zone_awareness_depends_on_shape.2 azId
      "2020-05-01T12:00:00" (.aware ⟨2020, 5, 1, 12, 0, 0, 0⟩ 0) rfl rfl
    exact ⟨w, off, by rw [← hw]; rfl⟩

end Rets
